import Mathlib

/-!
Verification of the graphrl core (graphrl/graphrl.py): the Graph/Solution
data model with copy-on-write views, the Problem reward abstraction, and
the circular ReplayMemory buffer.  Python objects that share mutable
backing storage (selection lists and feature vectors) are embedded with an
explicit store: a `Sol` record holds references (indices) into the store,
and mutating operations pass the store explicitly.  Python exceptions are
embedded with `Except PyErr`.
-/

namespace GraphRL

/-- The Python exception kinds the embedded code can raise. -/
inductive PyErr where
  | typeError
  | attributeError
  | indexError
  | assertionError
deriving DecidableEq, Repr

/-! ## ReplayMemory (graphrl.py lines 222-251)

Entries are opaque to the buffer; we embed them as `Nat` labels. -/

structure ReplayMemory where
  capacity : Nat
  arr : List Nat
  index : Nat
deriving DecidableEq, Repr

/-- `ReplayMemory.__init__`. -/
def ReplayMemory.init (c : Nat) : ReplayMemory := ⟨c, [], 0⟩

/-- `ReplayMemory.add`: append while below capacity, else overwrite at the
cursor and advance it modulo capacity. -/
def ReplayMemory.add (m : ReplayMemory) (s : Nat) : ReplayMemory :=
  if m.arr.length < m.capacity then
    let arr := m.arr ++ [s]
    { m with arr := arr, index := arr.length % m.capacity }
  else
    { m with arr := m.arr.set m.index s, index := (m.index + 1) % m.capacity }

/-- Add the entries `0, 1, ..., n-1` in order. -/
def ReplayMemory.addRange (m : ReplayMemory) : Nat → ReplayMemory
  | 0 => m
  | n + 1 => (m.addRange n).add n

/-- The contents of the buffer after `m` sequential adds, `m ≥ C`:
position `p` holds the latest value congruent to `p` mod `C`. -/
def replayExpected (C m : Nat) : List Nat :=
  (List.range C).map
    (fun p => if p < m % C then m - m % C + p else m - C - m % C + p)

lemma set_map_range (C r : Nat) (hr : r < C) (f : Nat → Nat) (v : Nat) :
    ((List.range C).map f).set r v
      = (List.range C).map (fun p => if p = r then v else f p) := by
  apply List.ext_getElem
  · simp
  · intro i h1 h2
    simp only [List.length_map, List.length_range] at h1 h2
    by_cases hi : r = i
    · subst hi
      rw [List.getElem_set_self (by simpa using hr)]
      simp
    · rw [List.getElem_set_ne hi]
      simp only [List.getElem_map, List.getElem_range]
      rw [if_neg (by omega)]

lemma addRange_fill (C m : Nat) (hm : m ≤ C) :
    (ReplayMemory.init C).addRange m = ⟨C, List.range m, m % C⟩ := by
  induction m with
  | zero => simp [ReplayMemory.addRange, ReplayMemory.init, Nat.zero_mod]
  | succ n ih =>
    rw [ReplayMemory.addRange, ih (by omega)]
    rw [ReplayMemory.add]
    simp only [List.length_range]
    rw [if_pos (by omega)]
    simp [List.range_succ]

lemma addRange_full (C m : Nat) (hC : 0 < C) (hm : C ≤ m) :
    (ReplayMemory.init C).addRange m = ⟨C, replayExpected C m, m % C⟩ := by
  induction m with
  | zero => omega
  | succ n ih =>
    rcases Nat.lt_or_ge C (n + 1) with hlt | hge
    · have hCn : C ≤ n := by omega
      rw [ReplayMemory.addRange, ih hCn]
      rw [ReplayMemory.add]
      simp only [replayExpected, List.length_map, List.length_range]
      rw [if_neg (lt_irrefl C)]
      have hr : n % C < C := Nat.mod_lt _ hC
      rw [set_map_range C (n % C) hr]
      have hmod : (n % C + 1) % C = (n + 1) % C := Nat.mod_add_mod n C 1
      rw [ReplayMemory.mk.injEq]
      refine ⟨rfl, ?_, hmod⟩
      · apply List.map_congr_left
        intro p hp
        rw [List.mem_range] at hp
        have hle : n % C ≤ n := Nat.mod_le n C
        rcases Nat.lt_or_ge (n % C + 1) C with hcase | hcase
        · have h1 : (n + 1) % C = n % C + 1 := by
            rw [← hmod, Nat.mod_eq_of_lt hcase]
          rw [h1]
          by_cases hpe : p = n % C
          · subst hpe; rw [if_pos rfl, if_pos (by omega)]; omega
          · rw [if_neg hpe]
            by_cases hplt : p < n % C
            · rw [if_pos hplt, if_pos (by omega)]; omega
            · rw [if_neg hplt, if_neg (by omega)]; omega
        · have hCeq : n % C + 1 = C := by omega
          have h1 : (n + 1) % C = 0 := by
            rw [← hmod, hCeq, Nat.mod_self]
          rw [h1]
          by_cases hpe : p = n % C
          · subst hpe; rw [if_pos rfl, if_neg (by omega)]; omega
          · rw [if_neg hpe]
            have hplt : p < n % C := by omega
            rw [if_pos hplt, if_neg (by omega)]; omega
    · have hCeq : C = n + 1 := by omega
      subst hCeq
      rw [ReplayMemory.addRange, addRange_fill _ n (by omega)]
      rw [ReplayMemory.add]
      simp only [List.length_range]
      rw [if_pos (by omega)]
      simp only [replayExpected, Nat.mod_self]
      rw [ReplayMemory.mk.injEq]
      refine ⟨rfl, ?_, ?_⟩
      · rw [List.range_succ]
        apply List.ext_getElem
        · simp
        · intro i h1 h2
          rw [List.getElem_map]
          rw [if_neg (Nat.not_lt_zero _)]
          omega
      · simp [Nat.mod_self]

lemma addRange_length_le (C m : Nat) :
    ((ReplayMemory.init C).addRange m).arr.length ≤ C ∧
      ((ReplayMemory.init C).addRange m).capacity = C := by
  induction m with
  | zero => simp [ReplayMemory.addRange, ReplayMemory.init]
  | succ n ih =>
    rw [ReplayMemory.addRange, ReplayMemory.add]
    rcases ih with ⟨ih1, ih2⟩
    by_cases h : ((ReplayMemory.init C).addRange n).arr.length <
        ((ReplayMemory.init C).addRange n).capacity
    · rw [if_pos h]
      simpa using ⟨by omega, ih2⟩
    · rw [if_neg h]
      simpa using ⟨by simpa using ih1, ih2⟩

/-- C2: after `C + k` sequential adds of `0, ..., C+k-1` into a fresh buffer of
capacity `C ≥ 1`, the buffer has length exactly `C`, holds exactly the labels
`{k, ..., C+k-1}`, and at no intermediate point did the length exceed `C`. -/
theorem replay_memory_circular (C k : Nat) (hC : 1 ≤ C) :
    (((ReplayMemory.init C).addRange (C + k)).arr.length = C ∧
      (∀ x, x ∈ ((ReplayMemory.init C).addRange (C + k)).arr ↔
        k ≤ x ∧ x < C + k)) ∧
      ∀ m, ((ReplayMemory.init C).addRange m).arr.length ≤ C := by
  refine ⟨?_, fun m => (addRange_length_le C m).1⟩
  rw [addRange_full C (C + k) (by omega) (by omega)]
  simp only [replayExpected]
  have hr : (C + k) % C = k % C := by
    rw [Nat.add_comm]; exact Nat.add_mod_right k C
  refine ⟨by simp, ?_⟩
  intro x
  rw [hr]
  have hrk : k % C ≤ k := Nat.mod_le k C
  have hrC : k % C < C := Nat.mod_lt _ (by omega)
  have hdvd : C ∣ (k - k % C) := by
    have := (Nat.div_add_mod k C).symm
    exact ⟨k / C, by omega⟩
  simp only [List.mem_map, List.mem_range]
  constructor
  · rintro ⟨p, hp, hfp⟩
    by_cases hplt : p < k % C
    · rw [if_pos hplt] at hfp; omega
    · rw [if_neg hplt] at hfp; omega
  · rintro ⟨h1, h2⟩
    rcases Nat.lt_or_ge x (C + k - k % C) with hx | hx
    · refine ⟨x - (k - k % C), by omega, ?_⟩
      rw [if_neg (by omega)]
      omega
    · refine ⟨x - (C + k - k % C), by omega, ?_⟩
      rw [if_pos (by omega)]
      omega

/-! ## Graph (graphrl.py lines 30-67)

Torch tensors are embedded as `List (List Int)`; tensor object identity is
tracked with explicit ids so that "returns the cached object" is expressible:
the base matrices carry ids 0 and 1, every freshly computed padded matrix
gets a fresh id from a counter, and a cache hit returns the stored
(matrix, id) pair unchanged. -/

structure Graph where
  adjacency : List (List Int)
  weights : List (List Int)
deriving DecidableEq, Repr

/-- `Graph.__len__`: the node count `N`. -/
def Graph.len (g : Graph) : Nat := g.adjacency.length

/-- The constructor's assertions: both matrices are square of the same size. -/
def Graph.wf (g : Graph) : Prop :=
  (∀ row ∈ g.adjacency, row.length = g.len) ∧
    g.weights.length = g.len ∧ ∀ row ∈ g.weights, row.length = g.len

/-- `Graph.__eq__`: elementwise equality of both matrices (`torch.equal`). -/
def Graph.beq (a b : Graph) : Bool :=
  decide (a.adjacency = b.adjacency) && decide (a.weights = b.weights)

/-- `F.pad(m, (0, p - N, 0, p - N))`: zero-pad each row on the right and add
zero rows at the bottom. -/
def padMat (m : List (List Int)) (p : Nat) : List (List Int) :=
  m.map (fun row => row ++ List.replicate (p - row.length) 0) ++
    List.replicate (p - m.length) (List.replicate p 0)

/-- Entry `(i, j)` of a matrix, 0 outside its extent. -/
def matGet (m : List (List Int)) (i j : Nat) : Int := (m.getD i []).getD j 0

/-- The mutable part of a `Graph` object: the base matrices together with the
`adjcache`/`wtcache` memo dictionaries and the id counter. -/
structure GraphState where
  graph : Graph
  adjcache : List (Option Nat × (List (List Int) × Nat))
  wtcache : List (Option Nat × (List (List Int) × Nat))
  nextId : Nat
deriving DecidableEq, Repr

/-- A freshly constructed `Graph` object: empty caches; the base adjacency
and weight tensors carry ids 0 and 1. -/
def GraphState.init (g : Graph) : GraphState := ⟨g, [], [], 2⟩

/-- Python truthiness of the `pad` argument (`None` and `0` are falsy). -/
def padTruthy : Option Nat → Bool
  | none => false
  | some p => decide (p ≠ 0)

/-- `Graph.adjacency(pad)`: serve from the cache when the key is present;
otherwise, when `pad` is truthy, assert `pad >= len(self)` and compute the
padded matrix (with a fresh id), else use the base matrix; memoize and
return. -/
def GraphState.adjacencyM (st : GraphState) (pad : Option Nat) :
    Except PyErr ((List (List Int) × Nat) × GraphState) :=
  match st.adjcache.lookup pad with
  | some entry => .ok (entry, st)
  | none =>
    if padTruthy pad then
      let p := pad.getD 0
      if st.graph.len ≤ p then
        let entry := (padMat st.graph.adjacency p, st.nextId)
        .ok (entry, { st with adjcache := (pad, entry) :: st.adjcache,
                              nextId := st.nextId + 1 })
      else .error .assertionError
    else
      let entry := (st.graph.adjacency, 0)
      .ok (entry, { st with adjcache := (pad, entry) :: st.adjcache })

/-- `Graph.weights(pad)`: same shape as `adjacencyM`, over `wtcache`. -/
def GraphState.weightsM (st : GraphState) (pad : Option Nat) :
    Except PyErr ((List (List Int) × Nat) × GraphState) :=
  match st.wtcache.lookup pad with
  | some entry => .ok (entry, st)
  | none =>
    if padTruthy pad then
      let p := pad.getD 0
      if st.graph.len ≤ p then
        let entry := (padMat st.graph.weights p, st.nextId)
        .ok (entry, { st with wtcache := (pad, entry) :: st.wtcache,
                              nextId := st.nextId + 1 })
      else .error .assertionError
    else
      let entry := (st.graph.weights, 0)
      .ok (entry, { st with wtcache := (pad, entry) :: st.wtcache })

lemma getD_append_left {α : Type} (l l' : List α) (i : Nat) (d : α)
    (h : i < l.length) : (l ++ l').getD i d = l.getD i d := by
  rw [List.getD_eq_getElem?_getD, List.getD_eq_getElem?_getD,
    List.getElem?_append_left h]

lemma getD_append_right {α : Type} (l l' : List α) (i : Nat) (d : α)
    (h : l.length ≤ i) : (l ++ l').getD i d = l'.getD (i - l.length) d := by
  rw [List.getD_eq_getElem?_getD, List.getD_eq_getElem?_getD,
    List.getElem?_append_right h]

lemma getD_replicate_lt {α : Type} (n i : Nat) (v d : α) (h : i < n) :
    (List.replicate n v).getD i d = v := by
  rw [List.getD_eq_getElem?_getD, List.getElem?_replicate, if_pos h]
  rfl

lemma getD_map_pad (f : List Int → List Int) (l : List (List Int)) (i : Nat)
    (h : i < l.length) : (l.map f).getD i [] = f (l.getD i []) := by
  rw [List.getD_eq_getElem (l.map f) [] (by simpa using h)]
  rw [List.getD_eq_getElem l [] h]
  exact List.getElem_map f

lemma matGet_padMat (m : List (List Int)) (p i j : Nat)
    (hrow : ∀ row ∈ m, row.length = m.length) (hi : i < p) (hj : j < p)
    (hp : m.length ≤ p) :
    matGet (padMat m p) i j =
      if i < m.length ∧ j < m.length then matGet m i j else 0 := by
  unfold matGet padMat
  by_cases him : i < m.length
  · rw [getD_append_left _ _ _ _ (by simpa using him)]
    rw [getD_map_pad _ _ _ him]
    have hlen : (m.getD i []).length = m.length := by
      rw [List.getD_eq_getElem m [] him]
      exact hrow _ (List.getElem_mem him)
    by_cases hjm : j < m.length
    · rw [if_pos ⟨him, hjm⟩, getD_append_left _ _ _ _ (by omega)]
    · rw [if_neg (by tauto), getD_append_right _ _ _ _ (by omega)]
      exact getD_replicate_lt _ _ _ _ (by omega)
  · rw [if_neg (by tauto)]
    rw [getD_append_right _ _ _ _ (by simpa using (by omega : m.length ≤ i))]
    rw [List.length_map]
    rw [getD_replicate_lt _ _ _ _ (by omega)]
    exact getD_replicate_lt _ _ _ _ hj

lemma padMat_shape (m : List (List Int)) (p : Nat)
    (hrow : ∀ row ∈ m, row.length = m.length) (hp : m.length ≤ p) :
    (padMat m p).length = p ∧ ∀ row ∈ padMat m p, row.length = p := by
  constructor
  · unfold padMat; simp; omega
  · intro row hr
    unfold padMat at hr
    rw [List.mem_append] at hr
    rcases hr with hr | hr
    · rw [List.mem_map] at hr
      obtain ⟨r0, hr0, hreq⟩ := hr
      have := hrow r0 hr0
      subst hreq
      simp; omega
    · have := List.eq_of_mem_replicate hr
      subst this
      simp

/-- C5: on a fresh well-formed `Graph` object with `N` nodes and any `P > N`,
the first `adjacency(pad=P)` call returns a `P × P` matrix whose top-left
`N × N` block is the base adjacency and whose other entries are zero, and a
second call with the same `P` returns the identical cached object (same
matrix, same object id, created by the first call) with the state unchanged. -/
theorem graph_adjacency_pad_cached (g : Graph) (P : Nat) (hwf : g.wf)
    (hP : g.len < P) :
    ∀ m id st1,
      (GraphState.init g).adjacencyM (some P) = .ok ((m, id), st1) →
      (m.length = P ∧ (∀ row ∈ m, row.length = P) ∧
        (∀ i j, i < P → j < P →
          matGet m i j =
            if i < g.len ∧ j < g.len then matGet g.adjacency i j else 0) ∧
        st1.adjcache.lookup (some P) = some (m, id)) ∧
      st1.adjacencyM (some P) = .ok ((m, id), st1) := by
  intro m id st1 hcall
  simp only [Graph.len] at hP
  rw [GraphState.adjacencyM] at hcall
  simp only [GraphState.init, List.lookup] at hcall
  have htr : padTruthy (some P) = true := by
    simp [padTruthy]; omega
  rw [htr] at hcall
  simp only [if_true, Option.getD_some] at hcall
  rw [if_pos (by simp only [Graph.len]; omega)] at hcall
  have hm : m = padMat g.adjacency P := by cases hcall; rfl
  have hid : id = 2 := by cases hcall; rfl
  have hst1 : st1 = ⟨g, [(some P, (padMat g.adjacency P, 2))], [], 3⟩ := by
    cases hcall; rfl
  subst hm hid hst1
  have hshape := padMat_shape g.adjacency P hwf.1 (by omega)
  refine ⟨⟨hshape.1, hshape.2, ?_, ?_⟩, ?_⟩
  · intro i j hi hj
    exact matGet_padMat g.adjacency P i j hwf.1 hi hj (by omega)
  · simp [List.lookup]
  · rw [GraphState.adjacencyM]
    simp [List.lookup]

/-- A concrete one-node graph used by the C5 witness. -/
def oneNodeGraph : Graph := ⟨[[5]], [[7]]⟩

/-- Witness for C5: the concrete 1-node graph padded to size 2. -/
theorem graph_adjacency_pad_cached_witness :
    (oneNodeGraph.wf ∧ oneNodeGraph.len < 2) ∧
      (∀ m id st1,
        (GraphState.init oneNodeGraph).adjacencyM (some 2) =
          .ok ((m, id), st1) →
        (m.length = 2 ∧ (∀ row ∈ m, row.length = 2) ∧
          (∀ i j, i < 2 → j < 2 →
            matGet m i j =
              if i < oneNodeGraph.len ∧ j < oneNodeGraph.len then
                matGet oneNodeGraph.adjacency i j
              else 0) ∧
          st1.adjcache.lookup (some 2) = some (m, id)) ∧
        st1.adjacencyM (some 2) = .ok ((m, id), st1)) :=
  ⟨⟨⟨by decide, by decide, by decide⟩, by decide⟩,
    graph_adjacency_pad_cached oneNodeGraph 2
      ⟨by decide, by decide, by decide⟩ (by decide)⟩

/-- C6 counterexample: on the 1-node graph, `adjacency(pad=0)` and
`weights(pad=0)` do **not** fail, although `0 < N = 1`: Python's `if pad:`
treats `pad = 0` as falsy, so the precondition assert is skipped and the
unpadded base matrix is returned (and memoized under key `0`). -/
theorem graph_pad_zero_no_failure :
    ((GraphState.init oneNodeGraph).adjacencyM (some 0)).isOk = true ∧
      ((GraphState.init oneNodeGraph).weightsM (some 0)).isOk = true ∧
      oneNodeGraph.len = 1 := by
  refine ⟨rfl, rfl, rfl⟩

/-- C6 amended: on a fresh `Graph` object with `N ≥ 1` nodes, `adjacency(pad)`
and `weights(pad)` fail with an assertion error for every pad value with
`1 ≤ pad < N`; for `pad = 0` the assert is skipped (Python truthiness) and the
unpadded base matrix is returned. -/
theorem graph_pad_too_small_fails (g : Graph) (P : Nat) (h1 : 1 ≤ P)
    (h2 : P < g.len) :
    (GraphState.init g).adjacencyM (some P) = .error .assertionError ∧
      (GraphState.init g).weightsM (some P) = .error .assertionError := by
  have htr : padTruthy (some P) = true := by
    simp [padTruthy]; omega
  constructor
  · rw [GraphState.adjacencyM]
    simp only [GraphState.init, List.lookup]
    rw [htr]
    simp only [if_true, Option.getD_some]
    rw [if_neg (by simp only [Graph.len] at h2 ⊢; omega)]
  · rw [GraphState.weightsM]
    simp only [GraphState.init, List.lookup]
    rw [htr]
    simp only [if_true, Option.getD_some]
    rw [if_neg (by simp only [Graph.len] at h2 ⊢; omega)]

/-- Witness for the amended C6: `pad = 1` on a 2-node graph. -/
theorem graph_pad_too_small_fails_witness :
    (1 ≤ 1 ∧ 1 < Graph.len ⟨[[0, 1], [1, 0]], [[0, 0], [0, 0]]⟩) ∧
      ((GraphState.init ⟨[[0, 1], [1, 0]], [[0, 0], [0, 0]]⟩).adjacencyM
          (some 1) = .error .assertionError ∧
        (GraphState.init ⟨[[0, 1], [1, 0]], [[0, 0], [0, 0]]⟩).weightsM
          (some 1) = .error .assertionError) :=
  ⟨⟨by decide, by decide⟩,
    graph_pad_too_small_fails ⟨[[0, 1], [1, 0]], [[0, 0], [0, 0]]⟩ 1
      (by decide) (by decide)⟩

/-- Witness for C2 at capacity `C = 2`, overshoot `k = 3`. -/
theorem replay_memory_circular_witness :
    1 ≤ 2 ∧
      ((((ReplayMemory.init 2).addRange (2 + 3)).arr.length = 2 ∧
        (∀ x, x ∈ ((ReplayMemory.init 2).addRange (2 + 3)).arr ↔
          3 ≤ x ∧ x < 2 + 3)) ∧
        ∀ m, ((ReplayMemory.init 2).addRange m).arr.length ≤ 2) :=
  ⟨by decide, replay_memory_circular 2 3 (by decide)⟩

/-! ## Solution (graphrl.py lines 70-199)

A Python `Solution` shares its selection list and feature vector with other
`Solution` objects by reference.  We embed the two kinds of backing storage
as a `Store` (two growable heaps addressed by index); a `Sol` record holds
the graph, a reference into each heap, and the optional view bound
`nsteps`.  Feature-vector entries are the 1-based step stamps (0 means
unselected), exactly as the Python float tensor holds them. -/

structure Store where
  sols : List (List Nat)
  fvs : List (List Nat)
deriving DecidableEq, Repr

def Store.readSol (st : Store) (r : Nat) : List Nat := st.sols.getD r []

def Store.readFv (st : Store) (r : Nat) : List Nat := st.fvs.getD r []

def Store.writeSol (st : Store) (r : Nat) (v : List Nat) : Store :=
  { st with sols := st.sols.set r v }

def Store.writeFv (st : Store) (r : Nat) (v : List Nat) : Store :=
  { st with fvs := st.fvs.set r v }

def Store.allocSol (st : Store) (v : List Nat) : Nat × Store :=
  (st.sols.length, { st with sols := st.sols ++ [v] })

def Store.allocFv (st : Store) (v : List Nat) : Nat × Store :=
  (st.fvs.length, { st with fvs := st.fvs ++ [v] })

structure Sol where
  graph : Graph
  solRef : Nat
  fvRef : Nat
  nsteps : Option Nat
deriving DecidableEq, Repr

/-- `Solution.__init__(graph)` with no prior selection: allocates an empty
selection list and an all-zero feature vector of length `N`. -/
def Solution.new (g : Graph) (st : Store) : Sol × Store :=
  let (sr, st1) := st.allocSol []
  let (fr, st2) := st1.allocFv (List.replicate g.len 0)
  (⟨g, sr, fr, none⟩, st2)

/-- `Solution.__len__`: the view bound when set, else the backing list
length. -/
def Sol.length (s : Sol) (st : Store) : Nat :=
  match s.nsteps with
  | some n => n
  | none => (st.readSol s.solRef).length

/-- `Solution._resolve_view`: a non-view is returned unchanged; a view
clones the feature vector, zeroes the stamps of the selections beyond the
view bound, truncates the selection list (a fresh Python list from slicing),
and clears `nsteps`.  Both fresh objects live in newly allocated cells. -/
def Sol.resolveView (s : Sol) (st : Store) : Sol × Store :=
  match s.nsteps with
  | none => (s, st)
  | some n =>
    let sol := st.readSol s.solRef
    let fv := st.readFv s.fvRef
    let fv2 := (sol.drop n).foldl (fun v i => v.set i 0) fv
    let (fr, st1) := st.allocFv fv2
    let (sr, st2) := st1.allocSol (sol.take n)
    (⟨s.graph, sr, fr, none⟩, st2)

/-- `Solution.add_node`: asserts `0 <= nodeidx < len(graph)`, resolves the
view, asserts the node is unselected, marks the receiver as a view of its
pre-mutation length, appends the node to the shared list, stamps the
1-based step into the shared feature vector, and returns a fresh non-view
`Solution` over the same storage.  The result pairs (mutated receiver,
returned solution) with the updated store. -/
def Sol.addNode (s : Sol) (i : Nat) (st : Store) :
    Except PyErr ((Sol × Sol) × Store) :=
  if i < s.graph.len then
    let (s1, st1) := s.resolveView st
    let fv := st1.readFv s1.fvRef
    if fv.getD i 0 = 0 then
      let sol := st1.readSol s1.solRef
      let sol2 := sol ++ [i]
      let fv2 := fv.set i sol2.length
      let st2 := (st1.writeSol s1.solRef sol2).writeFv s1.fvRef fv2
      .ok ((⟨s1.graph, s1.solRef, s1.fvRef, some sol.length⟩,
            ⟨s1.graph, s1.solRef, s1.fvRef, none⟩), st2)
    else .error .assertionError
  else .error .assertionError

/-- `Solution.features()` (with `pad=None`): the boolean mask of nodes
selected at or before the effective step count. -/
def Sol.features (s : Sol) (st : Store) : List Bool :=
  let fv := st.readFv s.fvRef
  match s.nsteps with
  | none => fv.map (fun x => decide (x ≠ 0))
  | some n => fv.map (fun x => decide (x ≤ n) && decide (x ≠ 0))

/-- `Solution.subsolution_at_step`: an O(1) view sharing both backing
cells, with `nsteps = step`. -/
def Sol.subsolutionAtStep (s : Sol) (step : Nat) : Sol :=
  ⟨s.graph, s.solRef, s.fvRef, some step⟩

/-- Python list indexing `l[key]` with negative-index wraparound. -/
def listGetPy (l : List Nat) (key : Int) : Except PyErr Nat :=
  let k := if key < 0 then (l.length : Int) + key else key
  if 0 ≤ k ∧ k < (l.length : Int) then .ok (l.getD k.toNat 0)
  else .error .indexError

/-- `Solution.__getitem__`: a view rejects `key >= nsteps`, then defers to
Python list indexing on the backing list. -/
def Sol.getItem (s : Sol) (st : Store) (key : Int) : Except PyErr Nat :=
  match s.nsteps with
  | some n =>
    if (n : Int) ≤ key then .error .indexError
    else listGetPy (st.readSol s.solRef) key
  | none => listGetPy (st.readSol s.solRef) key

/-- Index (within the feature vector) of the `(pos+1)`-th zero entry,
scanning from position `idx`: the loop of `pick_random_node`. -/
def findZeroAux : List Nat → Nat → Nat → Option Nat
  | [], _, _ => none
  | x :: xs, pos, idx =>
    if x = 0 then
      if pos = 0 then some idx else findZeroAux xs (pos - 1) (idx + 1)
    else findZeroAux xs pos (idx + 1)

/-- `Solution.pick_random_node`, with the `random.randrange` draw passed in
explicitly as `pos`: resolve the view, fail if no unselected node remains,
else return the position of the `(pos+1)`-th zero feature-vector entry
(the trailing `assert False` is an assertion error). -/
def Sol.pickRandomNode (s : Sol) (st : Store) (pos : Nat) :
    Except PyErr (Nat × (Sol × Store)) :=
  let (s1, st1) := s.resolveView st
  if s1.graph.len ≤ (st1.readSol s1.solRef).length then .error .indexError
  else
    match findZeroAux (st1.readFv s1.fvRef) pos 0 with
    | some i => .ok (i, (s1, st1))
    | none => .error .assertionError

/-- First-maximal-index arg-max: `torch.max(qs, 0)` returning
(value, index), ties broken towards the smaller index. -/
def argmaxFirst : List Int → Option (Int × Nat)
  | [] => none
  | x :: xs =>
    match argmaxFirst xs with
    | none => some (x, 0)
    | some (v, i) => if x < v then some (v, i + 1) else some (x, 0)

/-- The masking step of `pick_node`:
`qs += -9999999999 * self.features().float()`. -/
def maskQs (qs : List Int) (feats : List Bool) : List Int :=
  qs.zipWith (fun q f => q + (if f then (-9999999999 : Int) else 0)) feats

/-- `Solution.pick_node`, with the external embedder's per-node value
estimates passed in as `qsIn` and the epsilon draw as `useRandom`
(`random.random() < epsilon`): fail if the solution is full; with the
random draw delegate to `pick_random_node`; otherwise truncate the value
list to `N`, mask the already-selected nodes by adding `-9999999999`, take
the first-maximal arg-max and assert its value is above `-999999999`. -/
def Sol.pickNode (s : Sol) (st : Store) (useRandom : Bool) (pos : Nat)
    (qsIn : List Int) : Except PyErr (Nat × (Sol × Store)) :=
  if s.graph.len ≤ s.length st then .error .indexError
  else if useRandom then s.pickRandomNode st pos
  else
    match argmaxFirst (maskQs (qsIn.take s.graph.len) (s.features st)) with
    | some (v, idx) =>
      if (-999999999 : Int) < v then .ok (idx, (s, st))
      else .error .assertionError
    | none => .error .assertionError

/-- The positional comparison loop of `Solution.__eq__`: compare indices
`i, i+1, ..., len-1` of both solutions, propagating index errors. -/
def eqFrom (st : Store) (a b : Sol) (len i : Nat) : Except PyErr Bool :=
  if _h : i < len then
    match a.getItem st (i : Int), b.getItem st (i : Int) with
    | .ok x, .ok y =>
      if x = y then eqFrom st a b len (i + 1) else .ok false
    | .error e, _ => .error e
    | .ok _, .error e => .error e
  else .ok true
termination_by len - i

/-- A Python value a `Solution` may be compared against: another solution,
a number, or a plain list. -/
inductive PyVal where
  | vsol (s : Sol)
  | vnum (n : Int)
  | vlist (l : List Int)
deriving DecidableEq, Repr

/-- Python `len(val)`: defined for solutions and lists, a `TypeError` for
numbers. -/
def pyLen (st : Store) : PyVal → Except PyErr Nat
  | .vsol s => .ok (s.length st)
  | .vnum _ => .error .typeError
  | .vlist l => .ok l.length

/-- Python attribute access `val.graph`: an `AttributeError` unless `val`
is a `Solution`. -/
def pyGraph : PyVal → Except PyErr Graph
  | .vsol s => .ok s.graph
  | .vnum _ => .error .attributeError
  | .vlist _ => .error .attributeError

/-- `Solution.__eq__(self, val)`: the try-body compares lengths, graphs,
takes the reference-identity shortcut, then compares positions; the
surrounding `except TypeError` turns a `TypeError` (and only a `TypeError`)
into `False`. -/
def solEqVal (st : Store) (a : Sol) (v : PyVal) : Except PyErr Bool :=
  let body : Except PyErr Bool :=
    match pyLen st v with
    | .error e => .error e
    | .ok lv =>
      if a.length st ≠ lv then .ok false
      else
        match pyGraph v with
        | .error e => .error e
        | .ok gv =>
          if ¬ Graph.beq a.graph gv then .ok false
          else
            match v with
            | .vsol b =>
              if a.solRef = b.solRef ∧ a.nsteps = b.nsteps then .ok true
              else eqFrom st a b (a.length st) 0
            | _ => .error .attributeError
  match body with
  | .error .typeError => .ok false
  | r => r

/-- `Solution.__eq__` between two solutions in the same store. -/
def solEqSol (st : Store) (a b : Sol) : Except PyErr Bool :=
  solEqVal st a (.vsol b)

/-- `MVCProblem.cost`: the negative of the effective selection count. -/
def mvcCost (s : Sol) (st : Store) : Int := -(s.length st : Int)

/-- `Problem.cumul_reward`: cost difference between the `to`- and
`fr`-step subsolution views, with the per-problem `cost` passed as the
strategy function. -/
def cumulReward (cost : Sol → Store → Int) (s : Sol) (st : Store)
    (fromStep toStep : Nat) : Int :=
  cost (s.subsolutionAtStep toStep) st - cost (s.subsolutionAtStep fromStep) st

/-- Grow a solution by a list of `add_node` calls, following the returned
solution at every step (the canonical usage the spec describes). -/
def buildGo : List Nat → Sol → Store → Except PyErr (Sol × Store)
  | [], s, st => .ok (s, st)
  | n :: rest, s, st =>
    match s.addNode n st with
    | .ok ((_, ret), st') => buildGo rest ret st'
    | .error e => .error e

/-- Build a solution from empty by a sequence of `add_node` calls. -/
def buildChain (g : Graph) (st : Store) (nodes : List Nat) :
    Except PyErr (Sol × Store) :=
  let (s0, st0) := Solution.new g st
  buildGo nodes s0 st0

/-- The feature vector obtained by stamping the selections `nodes` into
`fv` with consecutive 1-based steps starting at `base + 1`. -/
def stampVec : List Nat → List Nat → Nat → List Nat
  | fv, [], _ => fv
  | fv, n :: rest, base => stampVec (fv.set n (base + 1)) rest (base + 1)

/-! ## Helper lemmas about `List.getD` -/

lemma getD_map_lt {α β : Type} (f : α → β) (l : List α) (i : Nat) (dα : α)
    (dβ : β) (h : i < l.length) : (l.map f).getD i dβ = f (l.getD i dα) := by
  rw [List.getD_eq_getElem (l.map f) dβ (by simpa using h),
    List.getD_eq_getElem l dα h]
  exact List.getElem_map f

lemma getD_set_self_lt {α : Type} (l : List α) (i : Nat) (v d : α)
    (h : i < l.length) : (l.set i v).getD i d = v := by
  rw [List.getD_eq_getElem (l.set i v) d (by simpa using h)]
  exact List.getElem_set_self (by simpa using h)

lemma getD_set_of_ne {α : Type} (l : List α) (i j : Nat) (v d : α)
    (h : i ≠ j) : (l.set i v).getD j d = l.getD j d := by
  rcases Nat.lt_or_ge j l.length with hj | hj
  · rw [List.getD_eq_getElem (l.set i v) d (by simpa using hj),
      List.getD_eq_getElem l d hj]
    exact List.getElem_set_ne h _
  · rw [List.getD_eq_default (l.set i v) d (by simpa using hj),
      List.getD_eq_default l d hj]

lemma getD_default_of_ge {α : Type} (l : List α) (i : Nat) (d : α)
    (h : l.length ≤ i) : l.getD i d = d :=
  List.getD_eq_default l d h

/-! ## C7: cumulative reward -/

/-- C7: `cumul_reward(solution, fr, to)` is by definition the difference of
the problem cost at the `to`- and `fr`-step subsolution views, for any cost
strategy; and for `MVCProblem` (cost = minus the selection count) the
cumulative reward across steps 0 to 3 of a solution built by three
`add_node` calls is `-3`. -/
theorem cumul_reward_is_cost_difference :
    (∀ (cost : Sol → Store → Int) (s : Sol) (st : Store)
        (fromStep toStep : Nat),
        cumulReward cost s st fromStep toStep =
          cost (s.subsolutionAtStep toStep) st -
            cost (s.subsolutionAtStep fromStep) st) ∧
      ∀ (g : Graph) (st : Store) (a b c : Nat) (s3 : Sol) (st3 : Store),
        buildChain g st [a, b, c] = .ok (s3, st3) →
        cumulReward mvcCost s3 st3 0 3 = -3 := by
  refine ⟨fun cost s st f t => rfl, ?_⟩
  intro g st a b c s3 st3 _hbuild
  rfl

/-- A concrete 3-node graph (no edges) for witnesses. -/
def threeNodeGraph : Graph :=
  ⟨[[0, 0, 0], [0, 0, 0], [0, 0, 0]], [[0, 0, 0], [0, 0, 0], [0, 0, 0]]⟩

/-- Witness for C7: selecting nodes 0, 1, 2 on the 3-node graph. -/
theorem cumul_reward_is_cost_difference_witness :
    buildChain threeNodeGraph ⟨[], []⟩ [0, 1, 2] =
        .ok (⟨threeNodeGraph, 0, 0, none⟩, ⟨[[0, 1, 2]], [[1, 2, 3]]⟩) ∧
      cumulReward mvcCost ⟨threeNodeGraph, 0, 0, none⟩
        ⟨[[0, 1, 2]], [[1, 2, 3]]⟩ 0 3 = -3 :=
  ⟨rfl,
    cumul_reward_is_cost_difference.2 threeNodeGraph ⟨[], []⟩ 0 1 2
      ⟨threeNodeGraph, 0, 0, none⟩ ⟨[[0, 1, 2]], [[1, 2, 3]]⟩ rfl⟩

/-! ## C10: negative indexing bypasses the view bound -/

/-- C10: on a view `v = subsolution_at_step(k)` over a backing selection
list of length `L` with `0 < k < L`, `v[-1]` does not fail: the guard only
rejects `key >= nsteps`, which `-1` never triggers, and Python negative
indexing then returns the last element of the **full** backing list — which
(backing selections being distinct nodes) differs from the view's own last
selection at position `k - 1`. -/
theorem view_negative_index_bypasses_bound (st : Store) (s : Sol)
    (k L : Nat) (hL : (st.readSol s.solRef).length = L) (hk0 : 0 < k)
    (hkL : k < L) (hnd : (st.readSol s.solRef).Nodup) :
    (s.subsolutionAtStep k).getItem st (-1) =
        .ok ((st.readSol s.solRef).getD (L - 1) 0) ∧
      (st.readSol s.solRef).getD (L - 1) 0 ≠
        (st.readSol s.solRef).getD (k - 1) 0 := by
  constructor
  · rw [Sol.getItem]
    simp only [Sol.subsolutionAtStep]
    rw [if_neg (by omega)]
    rw [listGetPy]
    simp only [hL]
    rw [if_pos (by constructor <;> omega)]
    have : ((L : Int) + (-1)).toNat = L - 1 := by omega
    rw [if_pos (by omega), this]
  · rw [List.getD_eq_getElem _ _ (by omega), List.getD_eq_getElem _ _ (by omega)]
    intro hcontra
    have := (List.Nodup.getElem_inj_iff hnd).mp hcontra
    omega

/-- Witness for C10: backing list `[4, 5, 6]`, view bound `k = 1`. -/
theorem view_negative_index_bypasses_bound_witness :
    ((Store.mk [[4, 5, 6]] [[1, 2, 3]]).readSol 0).length = 3 ∧
      ((Store.mk [[4, 5, 6]] [[1, 2, 3]]).readSol 0).Nodup ∧
      ((Sol.mk threeNodeGraph 0 0 none).subsolutionAtStep 1).getItem
          (Store.mk [[4, 5, 6]] [[1, 2, 3]]) (-1) =
        .ok (((Store.mk [[4, 5, 6]] [[1, 2, 3]]).readSol 0).getD 2 0) ∧
      ((Store.mk [[4, 5, 6]] [[1, 2, 3]]).readSol 0).getD 2 0 ≠
        ((Store.mk [[4, 5, 6]] [[1, 2, 3]]).readSol 0).getD 0 0 :=
  ⟨by decide, by decide,
    (view_negative_index_bypasses_bound (Store.mk [[4, 5, 6]] [[1, 2, 3]])
        (Sol.mk threeNodeGraph 0 0 none) 1 3 (by decide) (by decide)
        (by decide) (by decide)).1,
    (view_negative_index_bypasses_bound (Store.mk [[4, 5, 6]] [[1, 2, 3]])
        (Sol.mk threeNodeGraph 0 0 none) 1 3 (by decide) (by decide)
        (by decide) (by decide)).2⟩

/-! ## C9: the receiver of `add_node` becomes a stale view -/

/-- C9: after `s2 = s.add_node(i)` on a non-view solution `s` of length `L`
(with valid backing references), the receiver itself has become a view of
its pre-mutation state: its `nsteps` is `L`, its length is still `L`, its
`features()` does not mark node `i` even though the shared backing feature
vector now records `i` at step `L + 1`, and `s[L]` fails with an index
error — while the returned solution has length `L + 1` with `i` as its last
selection. -/
theorem add_node_stale_receiver (st : Store) (s : Sol) (i L : Nat)
    (hns : s.nsteps = none)
    (hL : (st.readSol s.solRef).length = L)
    (hsr : s.solRef < st.sols.length)
    (hfr : s.fvRef < st.fvs.length)
    (hfvlen : (st.readFv s.fvRef).length = s.graph.len) :
    ∀ s' ret st', s.addNode i st = .ok ((s', ret), st') →
      s'.nsteps = some L ∧
      s'.length st' = L ∧
      (s'.features st').getD i false = false ∧
      (st'.readFv s'.fvRef).getD i 0 = L + 1 ∧
      s'.getItem st' (L : Int) = .error .indexError ∧
      ret.length st' = L + 1 ∧
      ret.getItem st' (L : Int) = .ok i := by
  intro s' ret st' hok
  rw [Sol.addNode] at hok
  simp only [Sol.resolveView, hns] at hok
  by_cases hiN : i < s.graph.len
  · rw [if_pos hiN] at hok
    by_cases hzero : (st.readFv s.fvRef).getD i 0 = 0
    · rw [if_pos hzero] at hok
      rw [Except.ok.injEq, Prod.mk.injEq, Prod.mk.injEq] at hok
      obtain ⟨⟨hs', hret⟩, hst'⟩ := hok
      subst hs' hret hst'
      have hiF : i < (st.readFv s.fvRef).length := by omega
      have hreadFv :
          ((st.writeSol s.solRef
              (st.readSol s.solRef ++ [i])).writeFv s.fvRef
            ((st.readFv s.fvRef).set i
              (st.readSol s.solRef ++ [i]).length)).readFv s.fvRef =
          (st.readFv s.fvRef).set i
            (st.readSol s.solRef ++ [i]).length := by
        exact getD_set_self_lt _ _ _ _ (by simpa [Store.writeSol] using hfr)
      have hreadSol :
          ((st.writeSol s.solRef
              (st.readSol s.solRef ++ [i])).writeFv s.fvRef
            ((st.readFv s.fvRef).set i
              (st.readSol s.solRef ++ [i]).length)).readSol s.solRef =
          st.readSol s.solRef ++ [i] := by
        exact getD_set_self_lt _ _ _ _ hsr
      refine ⟨by rw [hL], by simp [Sol.length, hL], ?_, ?_, ?_, ?_, ?_⟩
      · rw [Sol.features]
        simp only [hreadFv]
        rw [getD_map_lt _ _ _ 0 _ (by simpa using hiF)]
        rw [getD_set_self_lt _ _ _ _ hiF]
        simp only [List.length_append, List.length_singleton, hL]
        simp
      · rw [hreadFv, getD_set_self_lt _ _ _ _ hiF]
        simp [hL]
      · rw [Sol.getItem]
        simp only [hL]
        rw [if_pos (by omega)]
      · rw [Sol.length]
        simp only [hreadSol]
        simp [hL]
      · simp only [Sol.getItem, hreadSol, listGetPy]
        have hlen2 : (st.readSol s.solRef ++ [i]).length = L + 1 := by
          simp [hL]
        rw [if_neg (show ¬((L : Int) < 0) by omega)]
        have hcond : (0 : Int) ≤ (L : Int) ∧
            (L : Int) < ((st.readSol s.solRef ++ [i]).length : Int) := by
          constructor
          · omega
          · rw [hlen2]; omega
        rw [if_pos hcond]
        rw [show ((L : Int)).toNat = L by omega]
        rw [getD_append_right _ _ _ _ (by omega)]
        simp [hL, List.getD]
    · rw [if_neg hzero] at hok
      simp at hok
  · rw [if_neg hiN] at hok
    simp at hok

/-- Witness for C9: adding node 1 to the solution `[0]` on the 3-node
graph. -/
theorem add_node_stale_receiver_witness :
    (Sol.mk threeNodeGraph 0 0 none).addNode 1
        (Store.mk [[0]] [[1, 0, 0]]) =
      .ok ((⟨threeNodeGraph, 0, 0, some 1⟩, ⟨threeNodeGraph, 0, 0, none⟩),
        ⟨[[0, 1]], [[1, 2, 0]]⟩) ∧
      ((⟨threeNodeGraph, 0, 0, some 1⟩ : Sol).nsteps = some 1 ∧
        (Sol.mk threeNodeGraph 0 0 (some 1)).length ⟨[[0, 1]], [[1, 2, 0]]⟩ = 1 ∧
        ((Sol.mk threeNodeGraph 0 0 (some 1)).features
          ⟨[[0, 1]], [[1, 2, 0]]⟩).getD 1 false = false ∧
        ((Store.mk [[0, 1]] [[1, 2, 0]]).readFv 0).getD 1 0 = 2 ∧
        (Sol.mk threeNodeGraph 0 0 (some 1)).getItem
          ⟨[[0, 1]], [[1, 2, 0]]⟩ (1 : Int) = .error .indexError ∧
        (Sol.mk threeNodeGraph 0 0 none).length ⟨[[0, 1]], [[1, 2, 0]]⟩ = 2 ∧
        (Sol.mk threeNodeGraph 0 0 none).getItem
          ⟨[[0, 1]], [[1, 2, 0]]⟩ (1 : Int) = .ok 1) :=
  ⟨rfl,
    add_node_stale_receiver (Store.mk [[0]] [[1, 0, 0]])
      (Sol.mk threeNodeGraph 0 0 none) 1 1 rfl (by decide) (by decide)
      (by decide) (by decide)
      ⟨threeNodeGraph, 0, 0, some 1⟩ ⟨threeNodeGraph, 0, 0, none⟩
      ⟨[[0, 1]], [[1, 2, 0]]⟩ rfl⟩

/-! ## C4: mutating a view leaves the original solution untouched -/

/-- Reading below the frontier of a store that was extended by one cell and
then written at the fresh cell sees the original contents. -/
lemma getD_set_append_of_lt {α : Type} (A : List α) (x y : α) (r : Nat)
    (d : α) (h : r < A.length) :
    ((A ++ [x]).set A.length y).getD r d = A.getD r d := by
  rw [getD_set_of_ne _ _ _ _ _ (by omega), getD_append_left _ _ _ _ h]

/-- Everything a solution observes factors through the two backing cells:
if a store change leaves them intact, length, features and indexing are
unchanged. -/
lemma frame_obs (st st2 : Store) (s : Sol)
    (hS : st2.readSol s.solRef = st.readSol s.solRef)
    (hF : st2.readFv s.fvRef = st.readFv s.fvRef) :
    s.length st2 = s.length st ∧ s.features st2 = s.features st ∧
      ∀ key : Int, s.getItem st2 key = s.getItem st key := by
  cases hns : s.nsteps with
  | none =>
    refine ⟨?_, ?_, fun key => ?_⟩
    · simp only [Sol.length, hns, hS]
    · simp only [Sol.features, hns, hF]
    · simp only [Sol.getItem, hns, hS]
  | some n =>
    refine ⟨?_, ?_, fun key => ?_⟩
    · simp only [Sol.length, hns]
    · simp only [Sol.features, hns, hF]
    · simp only [Sol.getItem, hns, hS]

/-- The store shape produced by mutating a freshly resolved view (one new
selection cell, one new feature cell, in-place writes to both fresh cells)
is invisible at every previously existing reference. -/
lemma store_mut_frame_obs (st : Store) (s : Sol) (x y x2 y2 : List Nat)
    (hsr : s.solRef < st.sols.length) (hfr : s.fvRef < st.fvs.length) :
    (((Store.mk (st.sols ++ [x]) (st.fvs ++ [y])).writeSol st.sols.length
          x2).writeFv st.fvs.length y2).readSol s.solRef =
        st.readSol s.solRef ∧
      (((Store.mk (st.sols ++ [x]) (st.fvs ++ [y])).writeSol st.sols.length
          x2).writeFv st.fvs.length y2).readFv s.fvRef =
        st.readFv s.fvRef := by
  constructor
  · simp only [Store.readSol, Store.writeSol, Store.writeFv]
    exact getD_set_append_of_lt _ _ _ _ _ hsr
  · simp only [Store.readFv, Store.writeSol, Store.writeFv]
    exact getD_set_append_of_lt _ _ _ _ _ hfr

/-- Combination of the two frame lemmas: the full list of observations a
pre-existing solution can make is unchanged by mutating a freshly resolved
view. -/
lemma store_mut_frame_all (st : Store) (s : Sol) (x y x2 y2 : List Nat)
    (hsr : s.solRef < st.sols.length) (hfr : s.fvRef < st.fvs.length) :
    (((Store.mk (st.sols ++ [x]) (st.fvs ++ [y])).writeSol st.sols.length
          x2).writeFv st.fvs.length y2).readSol s.solRef =
        st.readSol s.solRef ∧
      (((Store.mk (st.sols ++ [x]) (st.fvs ++ [y])).writeSol st.sols.length
          x2).writeFv st.fvs.length y2).readFv s.fvRef =
        st.readFv s.fvRef ∧
      s.length (((Store.mk (st.sols ++ [x]) (st.fvs ++ [y])).writeSol
          st.sols.length x2).writeFv st.fvs.length y2) = s.length st ∧
      s.features (((Store.mk (st.sols ++ [x]) (st.fvs ++ [y])).writeSol
          st.sols.length x2).writeFv st.fvs.length y2) = s.features st ∧
      ∀ key : Int,
        s.getItem (((Store.mk (st.sols ++ [x]) (st.fvs ++ [y])).writeSol
            st.sols.length x2).writeFv st.fvs.length y2) key =
          s.getItem st key := by
  have h := store_mut_frame_obs st s x y x2 y2 hsr hfr
  have h2 := frame_obs st _ s h.1 h.2
  exact ⟨h.1, h.2, h2.1, h2.2.1, h2.2.2⟩

/-- C4: for a non-view solution `s` with valid backing references and any
view `v = s.subsolution_at_step(k)`, a successful `v.add_node(i)` (which
first resolves the view by copying into fresh storage) changes nothing `s`
observes: the backing selection list and feature vector of `s`, its
`features()`, its length, and indexing at every key are identical before
and after. -/
theorem view_mutation_isolation (st : Store) (s : Sol) (k i : Nat)
    (hns : s.nsteps = none)
    (hsr : s.solRef < st.sols.length)
    (hfr : s.fvRef < st.fvs.length) :
    ∀ v' ret st', (s.subsolutionAtStep k).addNode i st = .ok ((v', ret), st') →
      st'.readSol s.solRef = st.readSol s.solRef ∧
      st'.readFv s.fvRef = st.readFv s.fvRef ∧
      s.length st' = s.length st ∧
      s.features st' = s.features st ∧
      ∀ key : Int, s.getItem st' key = s.getItem st key := by
  intro v' ret st' hok
  rw [Sol.addNode] at hok
  simp only [Sol.resolveView, Sol.subsolutionAtStep, Store.allocFv,
    Store.allocSol] at hok
  by_cases hiN : i < s.graph.len
  · rw [if_pos hiN] at hok
    split at hok
    · rw [Except.ok.injEq, Prod.mk.injEq, Prod.mk.injEq] at hok
      obtain ⟨⟨hv', hret⟩, hst'⟩ := hok
      subst hst'
      exact store_mut_frame_all st s _ _ _ _ hsr hfr
    · simp at hok
  · rw [if_neg hiN] at hok
    simp at hok
/-- Witness for C4: the view at step 1 of the solution `[0, 1]` on the
3-node graph, mutated by adding node 2. -/
theorem view_mutation_isolation_witness :
    (Store.mk [[0, 1], [0, 2]] [[1, 2, 0], [1, 0, 2]]).readSol 0 =
        (Store.mk [[0, 1]] [[1, 2, 0]]).readSol 0 ∧
      (Store.mk [[0, 1], [0, 2]] [[1, 2, 0], [1, 0, 2]]).readFv 0 =
        (Store.mk [[0, 1]] [[1, 2, 0]]).readFv 0 ∧
      (Sol.mk threeNodeGraph 0 0 none).length
          (Store.mk [[0, 1], [0, 2]] [[1, 2, 0], [1, 0, 2]]) =
        (Sol.mk threeNodeGraph 0 0 none).length
          (Store.mk [[0, 1]] [[1, 2, 0]]) ∧
      (Sol.mk threeNodeGraph 0 0 none).features
          (Store.mk [[0, 1], [0, 2]] [[1, 2, 0], [1, 0, 2]]) =
        (Sol.mk threeNodeGraph 0 0 none).features
          (Store.mk [[0, 1]] [[1, 2, 0]]) ∧
      ∀ key : Int,
        (Sol.mk threeNodeGraph 0 0 none).getItem
            (Store.mk [[0, 1], [0, 2]] [[1, 2, 0], [1, 0, 2]]) key =
          (Sol.mk threeNodeGraph 0 0 none).getItem
            (Store.mk [[0, 1]] [[1, 2, 0]]) key :=
  view_mutation_isolation (Store.mk [[0, 1]] [[1, 2, 0]])
    (Sol.mk threeNodeGraph 0 0 none) 1 2 rfl (by decide) (by decide)
    (Sol.mk threeNodeGraph 1 1 (some 1)) (Sol.mk threeNodeGraph 1 1 none)
    (Store.mk [[0, 1], [0, 2]] [[1, 2, 0], [1, 0, 2]]) rfl

/-! ## C3: subsolution views equal prefix replays -/

lemma set_getD_self {α : Type} (l : List α) (r : Nat) (d : α)
    (h : r < l.length) : l.set r (l.getD r d) = l := by
  apply List.ext_getElem
  · simp
  · intro i h1 h2
    by_cases hri : r = i
    · subst hri
      rw [List.getElem_set_self (by simpa using h)]
      rw [List.getD_eq_getElem l d h]
    · rw [List.getElem_set_ne hri _]

lemma getD_append_last {α : Type} (A : List α) (x d : α) :
    (A ++ [x]).getD A.length d = x := by
  rw [getD_append_right _ _ _ _ (le_refl _)]
  simp [List.getD]

lemma set_append_last {α : Type} (A : List α) (x y : α) :
    (A ++ [x]).set A.length y = A ++ [y] := by
  induction A with
  | nil => rfl
  | cons a as ih =>
    show a :: ((as ++ [x]).set as.length y) = a :: (as ++ [y])
    rw [ih]

/-- Characterization of `buildGo` on a non-view solution: when the nodes
are distinct, in range and unstamped, the chain of `add_node` calls
succeeds, follows the same two backing cells throughout, appends the nodes
to the selection cell and stamps them consecutively into the feature
cell. -/
lemma buildGo_spec (nodes : List Nat) :
    ∀ (g : Graph) (sr fr : Nat) (st : Store),
      sr < st.sols.length → fr < st.fvs.length →
      (∀ n ∈ nodes, n < g.len) →
      (∀ n ∈ nodes, (st.readFv fr).getD n 0 = 0) →
      nodes.Nodup →
      buildGo nodes ⟨g, sr, fr, none⟩ st =
        .ok (⟨g, sr, fr, none⟩,
          ⟨st.sols.set sr (st.readSol sr ++ nodes),
           st.fvs.set fr
             (stampVec (st.readFv fr) nodes (st.readSol sr).length)⟩) := by
  induction nodes with
  | nil =>
    intro g sr fr st hsr hfr _hb _hz _hnd
    simp only [buildGo, stampVec, List.append_nil, Store.readSol, Store.readFv]
    rw [set_getD_self _ _ _ hsr, set_getD_self _ _ _ hfr]
  | cons n rest ih =>
    intro g sr fr st hsr hfr hb hz hnd
    have hmemn : n ∈ n :: rest := List.mem_cons_self _ _
    have haddeq : Sol.addNode ⟨g, sr, fr, none⟩ n st =
        .ok ((⟨g, sr, fr, some (st.readSol sr).length⟩, ⟨g, sr, fr, none⟩),
          (st.writeSol sr (st.readSol sr ++ [n])).writeFv fr
            ((st.readFv fr).set n (st.readSol sr ++ [n]).length)) := by
      simp only [Sol.addNode, Sol.resolveView]
      rw [if_pos (hb n hmemn), if_pos (hz n hmemn)]
    simp only [buildGo, haddeq]
    have h1 : sr < ((st.writeSol sr (st.readSol sr ++ [n])).writeFv fr
        ((st.readFv fr).set n (st.readSol sr ++ [n]).length)).sols.length := by
      simpa [Store.writeSol, Store.writeFv] using hsr
    have h2 : fr < ((st.writeSol sr (st.readSol sr ++ [n])).writeFv fr
        ((st.readFv fr).set n (st.readSol sr ++ [n]).length)).fvs.length := by
      simpa [Store.writeSol, Store.writeFv] using hfr
    have h3 : ∀ m ∈ rest, m < g.len :=
      fun m hm => hb m (List.mem_cons_of_mem _ hm)
    have hrf : ((st.writeSol sr (st.readSol sr ++ [n])).writeFv fr
        ((st.readFv fr).set n (st.readSol sr ++ [n]).length)).readFv fr =
        (st.readFv fr).set n (st.readSol sr ++ [n]).length :=
      getD_set_self_lt _ _ _ _ hfr
    have hrd : ((st.writeSol sr (st.readSol sr ++ [n])).writeFv fr
        ((st.readFv fr).set n (st.readSol sr ++ [n]).length)).readSol sr =
        st.readSol sr ++ [n] :=
      getD_set_self_lt _ _ _ _ hsr
    have h4 : ∀ m ∈ rest, (((st.writeSol sr (st.readSol sr ++ [n])).writeFv fr
        ((st.readFv fr).set n (st.readSol sr ++ [n]).length)).readFv fr).getD
          m 0 = 0 := by
      intro m hm
      have hmn : n ≠ m := by
        intro he
        subst he
        exact (List.nodup_cons.mp hnd).1 hm
      rw [hrf, getD_set_of_ne _ _ _ _ _ hmn]
      exact hz m (List.mem_cons_of_mem _ hm)
    have h5 : rest.Nodup := (List.nodup_cons.mp hnd).2
    rw [ih g sr fr _ h1 h2 h3 h4 h5]
    rw [Except.ok.injEq, Prod.mk.injEq]
    refine ⟨rfl, ?_⟩
    rw [Store.mk.injEq]
    constructor
    · show ((st.writeSol sr (st.readSol sr ++ [n])).sols).set sr _ = _
      rw [hrd]
      show (st.sols.set sr (st.readSol sr ++ [n])).set sr
          ((st.readSol sr ++ [n]) ++ rest) = _
      rw [List.set_set]
      congr 1
      simp
    · rw [hrf, hrd]
      show (st.fvs.set fr
            ((st.readFv fr).set n (st.readSol sr ++ [n]).length)).set fr
          (stampVec ((st.readFv fr).set n (st.readSol sr ++ [n]).length) rest
            (st.readSol sr ++ [n]).length) =
        st.fvs.set fr (stampVec (st.readFv fr) (n :: rest)
          (st.readSol sr).length)
      rw [List.set_set]
      congr 1
      show stampVec ((st.readFv fr).set n (st.readSol sr ++ [n]).length) rest
          (st.readSol sr ++ [n]).length =
        stampVec ((st.readFv fr).set n ((st.readSol sr).length + 1)) rest
          ((st.readSol sr).length + 1)
      simp

/-- Characterization of `buildChain`: building from empty allocates one
fresh cell of each kind at the current frontier and fills them. -/
lemma buildChain_spec (g : Graph) (st : Store) (nodes : List Nat)
    (hb : ∀ n ∈ nodes, n < g.len) (hnd : nodes.Nodup) :
    buildChain g st nodes =
      .ok (⟨g, st.sols.length, st.fvs.length, none⟩,
        ⟨st.sols ++ [nodes],
         st.fvs ++ [stampVec (List.replicate g.len 0) nodes 0]⟩) := by
  have hrepl : ∀ (n : Nat), (List.replicate g.len (0 : Nat)).getD n 0 = 0 := by
    intro n
    rcases Nat.lt_or_ge n g.len with h | h
    · exact getD_replicate_lt _ _ _ _ h
    · exact getD_default_of_ge _ _ _ (by simpa using h)
  simp only [buildChain, Solution.new, Store.allocSol, Store.allocFv]
  have h1 : st.sols.length <
      (Store.mk (st.sols ++ [[]]) (st.fvs ++ [List.replicate g.len 0])).sols.length := by
    simp
  have h2 : st.fvs.length <
      (Store.mk (st.sols ++ [[]]) (st.fvs ++ [List.replicate g.len 0])).fvs.length := by
    simp
  have h4 : ∀ n ∈ nodes,
      ((Store.mk (st.sols ++ [[]])
        (st.fvs ++ [List.replicate g.len 0])).readFv st.fvs.length).getD n 0
        = 0 := by
    intro n _hn
    show ((st.fvs ++ [List.replicate g.len 0]).getD st.fvs.length []).getD n 0 = 0
    rw [getD_append_last]
    exact hrepl n
  rw [buildGo_spec nodes g st.sols.length st.fvs.length _ h1 h2 hb h4 hnd]
  rw [Except.ok.injEq, Prod.mk.injEq]
  refine ⟨rfl, ?_⟩
  rw [Store.mk.injEq]
  have hrsol : (Store.mk (st.sols ++ [[]])
      (st.fvs ++ [List.replicate g.len 0])).readSol st.sols.length = [] :=
    getD_append_last _ _ _
  have hrfv : (Store.mk (st.sols ++ [[]])
      (st.fvs ++ [List.replicate g.len 0])).readFv st.fvs.length =
      List.replicate g.len 0 :=
    getD_append_last _ _ _
  constructor
  · show (st.sols ++ [[]]).set st.sols.length _ = _
    rw [hrsol, set_append_last]
    rfl
  · show (st.fvs ++ [List.replicate g.len 0]).set st.fvs.length _ = _
    rw [hrfv, hrsol, set_append_last]
    rfl

/-- If every position below `len` yields the same node on both sides, the
comparison loop of `__eq__` returns `True`. -/
lemma eqFrom_true (st : Store) (a b : Sol) (len : Nat) :
    ∀ d i, len - i ≤ d →
      (∀ j, i ≤ j → j < len →
        ∃ x, a.getItem st (j : Int) = .ok x ∧ b.getItem st (j : Int) = .ok x) →
      eqFrom st a b len i = .ok true := by
  intro d
  induction d with
  | zero =>
    intro i hd _hj
    rw [eqFrom]
    rw [dif_neg (by omega)]
  | succ d ih =>
    intro i hd hj
    rw [eqFrom]
    by_cases hi : i < len
    · rw [dif_pos hi]
      obtain ⟨x, hax, hbx⟩ := hj i (le_refl _) hi
      rw [hax, hbx]
      simp only [if_pos rfl]
      exact ih (i + 1) (by omega) (fun j hj1 hj2 => hj j (by omega) hj2)
    · rw [dif_neg hi]

lemma getD_take_lt {α : Type} (l : List α) (k j : Nat) (d : α) (hj : j < k)
    (hjl : j < l.length) : (l.take k).getD j d = l.getD j d := by
  rw [List.getD_eq_getElem (l.take k) d (by simp [List.length_take]; omega),
    List.getD_eq_getElem l d hjl]
  exact List.getElem_take _

/-- C3: for a solution built from empty by `L` successful `add_node` calls
and any `k ≤ L`, the view `subsolution_at_step(k)` is equal — under
`Solution.__eq__` (same effective length, same graph by value, same node at
every position below that length) — to the solution built by replaying only
the first `k` of those calls from empty. -/
theorem subsolution_equals_prefix_replay (g : Graph) (nodes : List Nat)
    (k : Nat) (st : Store) (hb : ∀ n ∈ nodes, n < g.len) (hnd : nodes.Nodup)
    (hk : k ≤ nodes.length) :
    ∀ sL stL tk stk,
      buildChain g st nodes = .ok (sL, stL) →
      buildChain g stL (nodes.take k) = .ok (tk, stk) →
      solEqSol stk (sL.subsolutionAtStep k) tk = .ok true := by
  intro sL stL tk stk h1 h2
  rw [buildChain_spec g st nodes hb hnd] at h1
  rw [Except.ok.injEq, Prod.mk.injEq] at h1
  obtain ⟨hsL, hstL⟩ := h1
  subst hsL hstL
  rw [buildChain_spec g _ (nodes.take k)
    (fun n hn => hb n (List.take_subset k nodes hn))
    ((List.take_sublist k nodes).nodup hnd)] at h2
  rw [Except.ok.injEq, Prod.mk.injEq] at h2
  obtain ⟨htk, hstk⟩ := h2
  subst htk hstk
  have hmin : min k nodes.length = k := Nat.min_eq_left hk
  have hreadL : ((st.sols ++ [nodes]) ++ [nodes.take k]).getD st.sols.length
      ([] : List Nat) = nodes := by
    rw [getD_append_left _ _ _ _ (by simp)]
    exact getD_append_last _ _ _
  have hreadR : ((st.sols ++ [nodes]) ++ [nodes.take k]).getD
      (st.sols ++ [nodes]).length ([] : List Nat) = nodes.take k :=
    getD_append_last _ _ _
  have heq : eqFrom
      (Store.mk ((st.sols ++ [nodes]) ++ [nodes.take k])
        ((st.fvs ++ [stampVec (List.replicate g.len 0) nodes 0]) ++
          [stampVec (List.replicate g.len 0) (nodes.take k) 0]))
      ⟨g, st.sols.length, st.fvs.length, some k⟩
      ⟨g, (st.sols ++ [nodes]).length,
        (st.fvs ++ [stampVec (List.replicate g.len 0) nodes 0]).length, none⟩
      k 0 = .ok true := by
    apply eqFrom_true _ _ _ k k 0 (by omega)
    intro j hj0 hjk
    refine ⟨nodes.getD j 0, ?_, ?_⟩
    · simp only [Sol.getItem, Store.readSol, hreadL]
      rw [if_neg (show ¬((k : Int) ≤ (j : Int)) by omega)]
      simp only [listGetPy]
      rw [if_neg (show ¬((j : Int) < 0) by omega)]
      have hcond : (0 : Int) ≤ (j : Int) ∧
          (j : Int) < (nodes.length : Int) := by
        constructor <;> omega
      rw [if_pos hcond]
      rw [show ((j : Int)).toNat = j by omega]
    · simp only [Sol.getItem, Store.readSol, hreadR]
      simp only [listGetPy]
      rw [if_neg (show ¬((j : Int) < 0) by omega)]
      have hcond : (0 : Int) ≤ (j : Int) ∧
          (j : Int) < ((nodes.take k).length : Int) := by
        constructor
        · omega
        · rw [List.length_take, hmin]; omega
      rw [if_pos hcond]
      rw [show ((j : Int)).toNat = j by omega]
      rw [getD_take_lt nodes k j 0 hjk (by omega)]
  simp only [solEqSol, solEqVal, pyLen, pyGraph, Sol.subsolutionAtStep,
    Sol.length, Store.readSol, hreadR, List.length_take, hmin]
  rw [if_neg (show ¬(k ≠ k) by simp)]
  rw [if_neg (show ¬¬(Graph.beq g g = true) by simp [Graph.beq])]
  rw [if_neg (show ¬(st.sols.length = (st.sols ++ [nodes]).length ∧
    (some k : Option Nat) = none) by simp)]
  rw [heq]

/-- Witness for C3: nodes `[0, 2]` on the 3-node graph, prefix `k = 1`. -/
theorem subsolution_equals_prefix_replay_witness :
    (∀ n ∈ [0, 2], n < threeNodeGraph.len) ∧ ([0, 2] : List Nat).Nodup ∧
      1 ≤ ([0, 2] : List Nat).length ∧
      buildChain threeNodeGraph ⟨[], []⟩ [0, 2] =
        .ok (⟨threeNodeGraph, 0, 0, none⟩, ⟨[[0, 2]], [[1, 0, 2]]⟩) ∧
      buildChain threeNodeGraph ⟨[[0, 2]], [[1, 0, 2]]⟩ [0] =
        .ok (⟨threeNodeGraph, 1, 1, none⟩,
          ⟨[[0, 2], [0]], [[1, 0, 2], [1, 0, 0]]⟩) ∧
      solEqSol ⟨[[0, 2], [0]], [[1, 0, 2], [1, 0, 0]]⟩
        ((⟨threeNodeGraph, 0, 0, none⟩ : Sol).subsolutionAtStep 1)
        ⟨threeNodeGraph, 1, 1, none⟩ = .ok true :=
  ⟨by decide, by decide, by decide, rfl, rfl,
    subsolution_equals_prefix_replay threeNodeGraph [0, 2] 1 ⟨[], []⟩
      (by decide) (by decide) (by decide)
      ⟨threeNodeGraph, 0, 0, none⟩ ⟨[[0, 2]], [[1, 0, 2]]⟩
      ⟨threeNodeGraph, 1, 1, none⟩ ⟨[[0, 2], [0]], [[1, 0, 2], [1, 0, 0]]⟩
      rfl rfl⟩

/-! ## C1: `pick_node` and the masking invariant -/

lemma findZeroAux_zero : ∀ (l : List Nat) (pos idx i : Nat),
    findZeroAux l pos idx = some i →
    idx ≤ i ∧ i - idx < l.length ∧ l.getD (i - idx) 1 = 0 := by
  intro l
  induction l with
  | nil => intro pos idx i h; simp [findZeroAux] at h
  | cons x xs ih =>
    intro pos idx i h
    rw [findZeroAux] at h
    by_cases hx : x = 0
    · rw [if_pos hx] at h
      by_cases hp : pos = 0
      · rw [if_pos hp] at h
        obtain rfl := Option.some.inj h
        refine ⟨le_refl _, by simp, ?_⟩
        rw [Nat.sub_self]
        simpa [List.getD] using hx
      · rw [if_neg hp] at h
        obtain ⟨h1, h2, h3⟩ := ih _ _ _ h
        refine ⟨by omega, by simp; omega, ?_⟩
        rw [show i - idx = (i - (idx + 1)) + 1 by omega]
        simpa [List.getD_cons_succ] using h3
    · rw [if_neg hx] at h
      obtain ⟨h1, h2, h3⟩ := ih _ _ _ h
      refine ⟨by omega, by simp; omega, ?_⟩
      rw [show i - idx = (i - (idx + 1)) + 1 by omega]
      simpa [List.getD_cons_succ] using h3

lemma argmaxFirst_ne_none (x : Int) (xs : List Int) :
    argmaxFirst (x :: xs) ≠ none := by
  rw [argmaxFirst]
  cases argmaxFirst xs with
  | none => simp
  | some p =>
    obtain ⟨v, i⟩ := p
    by_cases h : x < v <;> simp [h]

lemma argmaxFirst_spec : ∀ (l : List Int) (v : Int) (i : Nat),
    argmaxFirst l = some (v, i) →
    i < l.length ∧ l.getD i 0 = v ∧ ∀ j, j < l.length → l.getD j 0 ≤ v := by
  intro l
  induction l with
  | nil => intro v i h; simp [argmaxFirst] at h
  | cons x xs ih =>
    intro v i h
    rw [argmaxFirst] at h
    cases hxs : argmaxFirst xs with
    | none =>
      simp only [hxs, Option.some.injEq, Prod.mk.injEq] at h
      obtain ⟨rfl, rfl⟩ := h
      cases xs with
      | cons a as => exact absurd hxs (argmaxFirst_ne_none a as)
      | nil =>
        refine ⟨by simp, by simp [List.getD], ?_⟩
        intro j hj
        have hj0 : j = 0 := by simpa using hj
        subst hj0
        simp [List.getD]
    | some p =>
      obtain ⟨w, m⟩ := p
      simp only [hxs] at h
      obtain ⟨h1, h2, h3⟩ := ih w m hxs
      by_cases hord : x < w
      · rw [if_pos hord, Option.some.injEq, Prod.mk.injEq] at h
        obtain ⟨rfl, rfl⟩ := h
        refine ⟨by simpa using Nat.succ_lt_succ h1,
          by simpa [List.getD_cons_succ] using h2, ?_⟩
        intro j hj
        cases j with
        | zero => simp [List.getD]; omega
        | succ j' =>
          rw [List.getD_cons_succ]
          exact h3 j' (by simpa using hj)
      · rw [if_neg hord, Option.some.injEq, Prod.mk.injEq] at h
        obtain ⟨rfl, rfl⟩ := h
        refine ⟨by simp, by simp [List.getD], ?_⟩
        intro j hj
        cases j with
        | zero => simp [List.getD]
        | succ j' =>
          rw [List.getD_cons_succ]
          have := h3 j' (by simpa using hj)
          omega

lemma getD_zipWith_mask (f : Int → Bool → Int) (a : List Int) (b : List Bool)
    (j : Nat) (hja : j < a.length) (hjb : j < b.length) :
    (List.zipWith f a b).getD j 0 = f (a.getD j 0) (b.getD j false) := by
  rw [List.getD_eq_getElem (List.zipWith f a b) 0
      (by rw [List.length_zipWith]; omega),
    List.getD_eq_getElem a 0 hja, List.getD_eq_getElem b false hjb]
  exact List.getElem_zipWith

/-- A non-view solution whose stamped nodes are exactly its sequence and
whose length is below `N` always has an unstamped node. -/
lemma exists_unselected (fv : List Nat) (sol : List Nat) (N : Nat)
    (hlen : fv.length = N)
    (hmem : ∀ j, fv.getD j 0 ≠ 0 ↔ j ∈ sol)
    (hlt : sol.length < N) :
    ∃ j, j < N ∧ fv.getD j 0 = 0 := by
  by_contra hcon
  push_neg at hcon
  have hsub : Finset.range N ⊆ sol.toFinset := by
    intro j hj
    rw [Finset.mem_range] at hj
    rw [List.mem_toFinset]
    exact (hmem j).mp (hcon j hj)
  have hcard := Finset.card_le_card hsub
  rw [Finset.card_range] at hcard
  have := List.toFinset_card_le sol
  omega

/-- The concrete two-node graph used to refute the unbounded masking
claim. -/
def twoNodeGraph : Graph := ⟨[[0, 0], [0, 0]], [[0, 0], [0, 0]]⟩

/-- C1 counterexample: the masking constant is finite, so an adversarial
embedder defeats it.  On the two-node graph with node 0 already selected,
an embedder returning value `2 * 9999999999` for node 0 and `0` for node 1
makes the greedy branch of `pick_node` return node 0 — an
**already-selected** node — because `19999999998 - 9999999999` still beats
`0`, and the plausibility assert (`> -999999999`) passes as well. -/
theorem pick_node_adversarial_counterexample :
    (Sol.mk twoNodeGraph 0 0 none).pickNode (Store.mk [[0]] [[1, 0]]) false 0
        [19999999998, 0] =
      .ok (0, (Sol.mk twoNodeGraph 0 0 none, Store.mk [[0]] [[1, 0]])) ∧
      0 ∈ (Store.mk [[0]] [[1, 0]]).readSol 0 := by
  refine ⟨rfl, by decide⟩

/-- C1 amended: for every well-formed non-view solution, `pick_node` never
returns an already-selected node **provided the embedder's value estimates
are bounded** (here: every value within `[-999999998, 999999998]`, far
below the masking constant `9999999999`); the random branch needs no bound
on the embedder at all, since it returns a node whose feature-vector entry
is zero by construction.  (The counterexample shows the claim is false for
unbounded adversarial values.) -/
theorem pick_node_returns_unselected (st : Store) (s : Sol)
    (useRandom : Bool) (pos : Nat) (qsIn : List Int)
    (hns : s.nsteps = none)
    (hfvlen : (st.readFv s.fvRef).length = s.graph.len)
    (hmem : ∀ j, (st.readFv s.fvRef).getD j 0 ≠ 0 ↔ j ∈ st.readSol s.solRef)
    (hq : ∀ q ∈ qsIn, -999999998 ≤ q ∧ q ≤ 999999998)
    (hql : s.graph.len ≤ qsIn.length) :
    ∀ r s' st', s.pickNode st useRandom pos qsIn = .ok (r, (s', st')) →
      r ∉ st.readSol s.solRef := by
  intro r s' st' hok
  rw [Sol.pickNode] at hok
  by_cases hfull : s.graph.len ≤ s.length st
  · rw [if_pos hfull] at hok
    simp at hok
  · rw [if_neg hfull] at hok
    have hlen : s.length st = (st.readSol s.solRef).length := by
      simp [Sol.length, hns]
    cases useRandom with
    | true =>
      rw [if_pos rfl] at hok
      rw [Sol.pickRandomNode] at hok
      simp only [Sol.resolveView, hns] at hok
      rw [if_neg (by omega)] at hok
      cases hfind : findZeroAux (st.readFv s.fvRef) pos 0 with
      | none => rw [hfind] at hok; simp at hok
      | some idx =>
        rw [hfind] at hok
        rw [Except.ok.injEq, Prod.mk.injEq] at hok
        obtain ⟨hidx, _⟩ := hok
        subst hidx
        obtain ⟨_, h2, h3⟩ := findZeroAux_zero _ _ _ _ hfind
        intro hmemr
        have hne := (hmem idx).mpr hmemr
        apply hne
        rw [List.getD_eq_getElem _ _ (by simpa using h2)]
        rw [List.getD_eq_getElem _ _ (by simpa using h2)] at h3
        simpa using h3
    | false =>
      rw [if_neg (by simp)] at hok
      cases hargmax : argmaxFirst (maskQs (qsIn.take s.graph.len)
          (s.features st)) with
      | none => rw [hargmax] at hok; simp at hok
      | some p =>
        obtain ⟨v, idx⟩ := p
        simp only [hargmax] at hok
        by_cases hassert : (-999999999 : Int) < v
        · rw [if_pos hassert] at hok
          rw [Except.ok.injEq, Prod.mk.injEq] at hok
          obtain ⟨hidx, _⟩ := hok
          subst hidx
          intro hmemr
          obtain ⟨hi1, hi2, hi3⟩ := argmaxFirst_spec _ _ _ hargmax
          have hfeats : s.features st =
              (st.readFv s.fvRef).map (fun x => decide (x ≠ 0)) := by
            simp [Sol.features, hns]
          have hfeatlen : (s.features st).length = s.graph.len := by
            rw [hfeats, List.length_map, hfvlen]
          have htakelen : (qsIn.take s.graph.len).length = s.graph.len := by
            rw [List.length_take]
            omega
          have hmasklen : (maskQs (qsIn.take s.graph.len)
              (s.features st)).length = s.graph.len := by
            rw [maskQs, List.length_zipWith, htakelen, hfeatlen]
            simp
          have hiN : idx < s.graph.len := by omega
          -- the arg-max value at the selected node is deeply masked
          have hfvr : (st.readFv s.fvRef).getD idx 0 ≠ 0 := (hmem idx).mpr hmemr
          have hfeatr : (s.features st).getD idx false = true := by
            rw [hfeats, getD_map_lt _ _ _ 0 _ (by omega)]
            simpa using hfvr
          have hqr : (maskQs (qsIn.take s.graph.len) (s.features st)).getD idx 0 =
              (qsIn.take s.graph.len).getD idx 0 + (-9999999999) := by
            rw [maskQs, getD_zipWith_mask _ _ _ idx (by omega) (by omega)]
            rw [hfeatr]
            simp
          have hqtake : (qsIn.take s.graph.len).getD idx 0 = qsIn.getD idx 0 :=
            getD_take_lt qsIn s.graph.len idx 0 hiN (by omega)
          have hqbound := hq (qsIn.getD idx 0)
            (by rw [List.getD_eq_getElem _ _ (by omega)]
                exact List.getElem_mem _)
          -- there is an unselected node, whose arg-max value is unmasked
          obtain ⟨u, huN, hu0⟩ := exists_unselected (st.readFv s.fvRef)
            (st.readSol s.solRef) s.graph.len hfvlen hmem (by omega)
          have hfeatu : (s.features st).getD u false = false := by
            rw [hfeats, getD_map_lt _ _ _ 0 _ (by omega)]
            simpa using hu0
          have hqu : (maskQs (qsIn.take s.graph.len) (s.features st)).getD u 0 =
              (qsIn.take s.graph.len).getD u 0 := by
            rw [maskQs, getD_zipWith_mask _ _ _ u (by omega) (by omega)]
            rw [hfeatu]
            simp
          have hqutake : (qsIn.take s.graph.len).getD u 0 = qsIn.getD u 0 :=
            getD_take_lt qsIn s.graph.len u 0 huN (by omega)
          have hqubound := hq (qsIn.getD u 0)
            (by rw [List.getD_eq_getElem _ _ (by omega)]
                exact List.getElem_mem _)
          have hle := hi3 u (by omega)
          rw [hqu, hqutake] at hle
          rw [hqr, hqtake] at hi2
          omega
        · rw [if_neg hassert] at hok
          simp at hok

/-- The feature vector `[1, 0]` of the two-node witness store stamps
exactly the selection list `[0]`. -/
lemma twoNode_fv_matches_sol :
    ∀ j, ((Store.mk [[0]] [[1, 0]]).readFv 0).getD j 0 ≠ 0 ↔
      j ∈ (Store.mk [[0]] [[1, 0]]).readSol 0 := by
  intro j
  match j with
  | 0 => decide
  | 1 => decide
  | (j + 2) =>
    constructor
    · intro h
      refine absurd (getD_default_of_ge ((Store.mk [[0]] [[1, 0]]).readFv 0)
        (j + 2) 0 ?_) h
      show (2 : Nat) ≤ j + 2
      omega
    · intro h
      simp [Store.readSol] at h

/-- Witness for the amended C1: bounded embedder values `[5, 3]` on the
two-node graph with node 0 selected make the greedy branch return node 1,
which is unselected. -/
theorem pick_node_returns_unselected_witness :
    ((Store.mk [[0]] [[1, 0]]).readFv 0).length = twoNodeGraph.len ∧
      (∀ j, ((Store.mk [[0]] [[1, 0]]).readFv 0).getD j 0 ≠ 0 ↔
        j ∈ (Store.mk [[0]] [[1, 0]]).readSol 0) ∧
      (∀ q ∈ [(5 : Int), 3], -999999998 ≤ q ∧ q ≤ 999999998) ∧
      twoNodeGraph.len ≤ ([(5 : Int), 3]).length ∧
      (Sol.mk twoNodeGraph 0 0 none).pickNode (Store.mk [[0]] [[1, 0]])
        false 0 [5, 3] =
        .ok (1, (Sol.mk twoNodeGraph 0 0 none, Store.mk [[0]] [[1, 0]])) ∧
      1 ∉ (Store.mk [[0]] [[1, 0]]).readSol 0 :=
  ⟨by decide, twoNode_fv_matches_sol, by decide, by decide, rfl,
    pick_node_returns_unselected (Store.mk [[0]] [[1, 0]])
      (Sol.mk twoNodeGraph 0 0 none) false 0 [5, 3] rfl (by decide)
      twoNode_fv_matches_sol (by decide) (by decide) 1
      (Sol.mk twoNodeGraph 0 0 none) (Store.mk [[0]] [[1, 0]]) rfl⟩

/-! ## C8: equality against incompatible types -/

/-- C8 counterexample: comparing a `Solution` against a plain **list** of
matching length does not return `False` — it raises.  `__eq__` only
catches `TypeError`, but for a list `len(val)` succeeds and the failure
happens at `val.graph`, which raises an `AttributeError` that propagates
to the caller.  (Here: an empty solution compared against the empty
list.) -/
theorem solution_eq_incompatible_counterexample :
    solEqVal (Store.mk [[]] [[0]]) (Sol.mk oneNodeGraph 0 0 none)
        (.vlist []) = .error .attributeError ∧
      (.error .attributeError : Except PyErr Bool) ≠ .ok false :=
  ⟨rfl, fun h => Except.noConfusion h⟩

/-- C8 amended: `s == v` returns not-equal (`False`) for every value `v` on
which `len()` raises a `TypeError` (e.g. a number), and for every sequence
whose length differs from the solution's; but for a sequence of matching
length that lacks the `Solution` attributes the comparison instead raises
an `AttributeError` (only `TypeError` is caught). -/
theorem solution_eq_incompatible_amended (st : Store) (a : Sol) :
    (∀ n : Int, solEqVal st a (.vnum n) = .ok false) ∧
      (∀ l : List Int, l.length ≠ a.length st →
        solEqVal st a (.vlist l) = .ok false) ∧
      (∀ l : List Int, l.length = a.length st →
        solEqVal st a (.vlist l) = .error .attributeError) := by
  refine ⟨fun n => rfl, ?_, ?_⟩
  · intro l hne
    simp only [solEqVal, pyLen]
    rw [if_pos (fun h => hne h.symm)]
  · intro l heq
    simp only [solEqVal, pyLen, pyGraph]
    rw [if_neg (fun h => h heq.symm)]

/-- Witness for the amended C8: the empty solution on the one-node graph
compared against the number `7`, the list `[3]` (length mismatch) and the
empty list (length match). -/
theorem solution_eq_incompatible_amended_witness :
    solEqVal (Store.mk [[]] [[0]]) (Sol.mk oneNodeGraph 0 0 none)
        (.vnum 7) = .ok false ∧
      (([3] : List Int).length ≠
          (Sol.mk oneNodeGraph 0 0 none).length (Store.mk [[]] [[0]]) ∧
        solEqVal (Store.mk [[]] [[0]]) (Sol.mk oneNodeGraph 0 0 none)
          (.vlist [3]) = .ok false) ∧
      (([] : List Int).length =
          (Sol.mk oneNodeGraph 0 0 none).length (Store.mk [[]] [[0]]) ∧
        solEqVal (Store.mk [[]] [[0]]) (Sol.mk oneNodeGraph 0 0 none)
          (.vlist []) = .error .attributeError) :=
  ⟨(solution_eq_incompatible_amended (Store.mk [[]] [[0]])
      (Sol.mk oneNodeGraph 0 0 none)).1 7,
    ⟨by decide,
      (solution_eq_incompatible_amended (Store.mk [[]] [[0]])
        (Sol.mk oneNodeGraph 0 0 none)).2.1 [3] (by decide)⟩,
    ⟨by decide,
      (solution_eq_incompatible_amended (Store.mk [[]] [[0]])
        (Sol.mk oneNodeGraph 0 0 none)).2.2 [] (by decide)⟩⟩

end GraphRL
